import Mathlib

/-!
Shallow embedding of `revproxy.go` (package main of artyom/revproxy):
a host-based HTTP reverse proxy with per-backend bounded admission gates.

Go maps are embedded as association lists (`List (String × α)`) with
first-match lookup; Go channels of capacity `cap` used as counting
semaphores are embedded as a `Gate` record holding the capacity and the
number of tokens currently in the channel.  The external `net/url.Parse`
function is an abstract parameter `parse : String → Option URL` (it either
yields a URL value or fails); `net.Listen` is likewise a parameter.
-/

set_option autoImplicit false

namespace Revproxy

/-- Result of `net/url.Parse`; the claims only need the raw parsed text. -/
structure URL where
  raw : String
deriving Repr, DecidableEq

/-- Transport attached to a `httputil.ReverseProxy` in `NewRevProxy`:
either the custom per-backend transport whose `Dial` always dials the unix
socket at `path` (revproxy.go lines 104-108), or the process-wide shared
`http.DefaultTransport` (line 119). -/
inductive Transport where
  | unixSocket (path : String)
  | shared
deriving Repr, DecidableEq

/-- One entry of `rp.backends`: a `httputil.NewSingleHostReverseProxy dst`
together with the transport installed on it. -/
structure Backend where
  dst : URL
  transport : Transport
deriving Repr, DecidableEq

/-- State of one bucket `chan struct\x7b\x7d` created with
`make(chan struct\x7b\x7d, cap)`: its capacity and the number of values
currently buffered (tokens held). -/
structure Gate where
  cap : Nat
  held : Nat
deriving Repr, DecidableEq

/-- The `Config` struct (revproxy.go lines 139-143). `Mapping` is a Go map
`map[string]string`, embedded as an association list. -/
structure Config where
  MaxConnsPerBackend : Int
  MaxKeepalivesPerBackend : Int
  Mapping : List (String × String)
deriving Repr, DecidableEq

/-- `Config.validate` (revproxy.go lines 145-156). -/
def Config.validate (c : Config) : Option String :=
  if c.MaxConnsPerBackend < 1 then some "MaxConnsPerBackend is too low"
  else if c.MaxKeepalivesPerBackend < 1 then some "MaxKeepalivesPerBackend is too low"
  else if c.Mapping.length = 0 then some "no backends provided"
  else none

/-- The `RevProxy` struct (lines 76-79).  The extra field
`MaxIdleConnsPerHost` records the value written into the shared
`http.DefaultTransport` at line 90 of `NewRevProxy`; in Go this lives in a
process-global object, read-only after construction. -/
structure RevProxy where
  backends : List (String × Backend)
  buckets : List (String × Gate)
  MaxIdleConnsPerHost : Int
deriving Repr, DecidableEq

/-- Embedding of `strings.HasPrefix` from the Go standard library:
`startsWith s pre` is true exactly when `pre` is a prefix of `s`. -/
def startsWith (s pre : String) : Bool := pre.data.isPrefixOf s.data

/-- Go map read `m[k]` with comma-ok: first entry whose key equals `k`. -/
def lookupKey {α : Type} : List (String × α) → String → Option α
  | [], _ => none
  | (k1, a) :: rest, k => if k1 = k then some a else lookupKey rest k

/-- Go map write `m[k] = a` on a map already containing `k`: replace the
first entry with key `k`. -/
def updateKey {α : Type} : List (String × α) → String → α → List (String × α)
  | [], _, _ => []
  | (k1, a1) :: rest, k, a =>
      if k1 = k then (k, a) :: rest else (k1, a1) :: updateKey rest k a

/-- The `for k, v := range conf.Mapping` loop of `NewRevProxy`
(lines 91-121), parameterised by the url parser.  Each iteration either
aborts with an error or inserts a backend and a fresh gate of capacity
`cap` under the routing key `k`: destinations starting with `/` get a
unix-socket transport and a synthetic destination parsed from
`"http://" ++ k`; all others are parsed as network URLs and share the
default transport. -/
def buildLoop (parse : String → Option URL) (cap : Nat) :
    List (String × String) → Except String (List (String × Backend) × List (String × Gate))
  | [] => .ok ([], [])
  | (k, v) :: rest =>
    if startsWith v "/" then
      match parse ("http://" ++ k) with
      | none => .error "invalid URL"
      | some dst =>
        match buildLoop parse cap rest with
        | .error e => .error e
        | .ok (bs, gs) =>
          .ok ((k, ⟨dst, Transport.unixSocket v⟩) :: bs, (k, ⟨cap, 0⟩) :: gs)
    else
      match parse v with
      | none => .error "invalid URL"
      | some dst =>
        match buildLoop parse cap rest with
        | .error e => .error e
        | .ok (bs, gs) =>
          .ok ((k, ⟨dst, Transport.shared⟩) :: bs, (k, ⟨cap, 0⟩) :: gs)

/-- `NewRevProxy` (lines 81-123): validate the configuration, set the
shared transport keepalive limit, then build one backend and one gate per
mapping entry; any failure aborts with an error and no proxy value. -/
def NewRevProxy (parse : String → Option URL) (conf : Config) : Except String RevProxy :=
  match conf.validate with
  | some e => .error e
  | none =>
    match buildLoop parse conf.MaxConnsPerBackend.toNat conf.Mapping with
    | .error e => .error e
    | .ok (bs, gs) => .ok ⟨bs, gs, conf.MaxKeepalivesPerBackend⟩

/-- Outcome written to the client by `RevProxy.ServeHTTP`:
the backend response relayed after forwarding, or one of the two error
statuses produced by the dispatcher itself. -/
inductive Response where
  | forwarded
  | badGateway
  | serviceUnavailable
deriving Repr, DecidableEq

/-- HTTP status code of the dispatcher's own error responses
(`http.StatusBadGateway` = 502, `http.StatusServiceUnavailable` = 503);
a forwarded request relays the backend's own status. -/
def Response.statusCode : Response → Option Nat
  | .forwarded => none
  | .badGateway => some 502
  | .serviceUnavailable => some 503

/-- The admission step of `RevProxy.ServeHTTP` (lines 158-172) up to and
including the gate decision: look up the backend by `r.Host` (miss:
502, nothing else touched), then non-blocking send into the bucket
(`select` with `default`): if the channel has room the request is
admitted and one token is now held, otherwise 503 with no state change.
A missing bucket is Go's nil channel, whose send is never ready, so the
`default` branch (503) is taken. -/
def RevProxy.serveAdmit (rp : RevProxy) (host : String) : Response × RevProxy :=
  match lookupKey rp.backends host with
  | none => (.badGateway, rp)
  | some _ =>
    match lookupKey rp.buckets host with
    | none => (.serviceUnavailable, rp)
    | some g =>
      if g.held < g.cap then
        (.forwarded, { rp with buckets := updateKey rp.buckets host ⟨g.cap, g.held + 1⟩ })
      else
        (.serviceUnavailable, rp)

/-- The deferred `<-bkt` of line 167: one token leaves the bucket. -/
def RevProxy.releaseGate (rp : RevProxy) (host : String) : RevProxy :=
  match lookupKey rp.buckets host with
  | none => rp
  | some g => { rp with buckets := updateKey rp.buckets host ⟨g.cap, g.held - 1⟩ }

/-- A whole sequential request through `ServeHTTP`: admission, then (when
admitted) forwarding via `p.ServeHTTP` followed by the deferred release,
which Go runs on every exit path of the handler, panic included. -/
def RevProxy.ServeHTTP (rp : RevProxy) (host : String) : Response × RevProxy :=
  match rp.serveAdmit host with
  | (.forwarded, mid) => (.forwarded, mid.releaseGate host)
  | other => other

/-- State after `n` concurrent requests to `host` have passed admission
and are still in flight (none has completed yet). -/
def admitN (host : String) : Nat → RevProxy → RevProxy
  | 0, rp => rp
  | n + 1, rp => ((admitN host n rp).serveAdmit host).2

/-- State after `n` whole requests to `host` have run sequentially (each
completes, releasing its token, before the next arrives). -/
def requestN (host : String) : Nat → RevProxy → RevProxy
  | 0, rp => rp
  | n + 1, rp => ((requestN host n rp).ServeHTTP host).2

/-- A plain TCP listener as returned by `net.Listen`. -/
structure NetListener where
  addr : String
deriving Repr, DecidableEq

/-- Modelled from the spec: `netutil.LimitListener` (not part of this
repository) wraps a listener so at most `limit` connections are accepted
concurrently; `active` counts currently accepted, not yet closed
connections. -/
structure LimitedListener where
  inner : NetListener
  limit : Nat
  active : Nat
deriving Repr, DecidableEq

/-- Modelled from the spec: `netutil.LimitListener ln n` starts with no
accepted connections. -/
def LimitListener (ln : NetListener) (n : Nat) : LimitedListener := ⟨ln, n, 0⟩

/-- Modelled from the spec: a limited listener either accepts a new
connection (only possible below the cap; at the cap acceptance blocks, so
no step exists) or finishes closing an accepted one. -/
inductive LimitedListener.step : LimitedListener → LimitedListener → Prop
  | accept (l : LimitedListener) (h : l.active < l.limit) :
      LimitedListener.step l ⟨l.inner, l.limit, l.active + 1⟩
  | close (l : LimitedListener) (h : 0 < l.active) :
      LimitedListener.step l ⟨l.inner, l.limit, l.active - 1⟩

/-- `Listen` (lines 65-74), parameterised by the external `net.Listen`:
reject a non-positive cap before any listener is created, propagate
listen failures, otherwise wrap the TCP listener in a limit listener. -/
def Listen (netListen : String → Except String NetListener) (addr : String)
    (maxconn : Int) : Except String LimitedListener :=
  if maxconn < 1 then .error "maxconn should be positive"
  else
    match netListen addr with
    | .error e => .error e
    | .ok ln => .ok (LimitListener ln maxconn.toNat)

/-! Lemmas about association-list lookup and update. -/

theorem lookupKey_updateKey_self {α : Type} (l : List (String × α)) (k : String) (a : α)
    (h : (lookupKey l k).isSome) : lookupKey (updateKey l k a) k = some a := by
  induction l with
  | nil => simp [lookupKey] at h
  | cons hd tl ih =>
    obtain ⟨k1, a1⟩ := hd
    by_cases hk : k1 = k
    · simp [lookupKey, updateKey, hk]
    · simp [lookupKey, updateKey, hk] at h ⊢
      exact ih h

theorem lookupKey_updateKey_ne {α : Type} (l : List (String × α)) (k k2 : String) (a : α)
    (h : k ≠ k2) : lookupKey (updateKey l k a) k2 = lookupKey l k2 := by
  induction l with
  | nil => simp [lookupKey, updateKey]
  | cons hd tl ih =>
    obtain ⟨k1, a1⟩ := hd
    by_cases hk : k1 = k
    · simp [lookupKey, updateKey, hk, h]
    · simp [lookupKey, updateKey, hk]
      by_cases hk2 : k1 = k2 <;> simp [hk2, ih]

theorem lookupKey_isSome_iff {α : Type} (l : List (String × α)) (k : String) :
    (lookupKey l k).isSome ↔ k ∈ l.map Prod.fst := by
  induction l with
  | nil => simp [lookupKey]
  | cons hd tl ih =>
    obtain ⟨k1, a1⟩ := hd
    by_cases hk : k1 = k
    · simp [lookupKey, hk]
    · simp [lookupKey, hk, ih, Ne.symm hk]

theorem lookupKey_mem {α : Type} (l : List (String × α)) (k : String) (a : α)
    (h : lookupKey l k = some a) : (k, a) ∈ l := by
  induction l with
  | nil => simp [lookupKey] at h
  | cons hd tl ih =>
    obtain ⟨k1, a1⟩ := hd
    by_cases hk : k1 = k
    · simp [lookupKey, hk] at h
      simp [hk, h]
    · simp [lookupKey, hk] at h
      exact List.mem_cons_of_mem _ (ih h)

/-! Lemmas about the admission step. -/

theorem serveAdmit_backends (rp : RevProxy) (host : String) :
    ((rp.serveAdmit host).2).backends = rp.backends := by
  unfold RevProxy.serveAdmit
  cases lookupKey rp.backends host with
  | none => rfl
  | some b =>
    cases lookupKey rp.buckets host with
    | none => rfl
    | some g =>
      by_cases h : g.held < g.cap <;> simp [h]

theorem serveAdmit_found_lt (rp : RevProxy) (host : String) (b : Backend) (N m : Nat)
    (hb : lookupKey rp.backends host = some b)
    (hg : lookupKey rp.buckets host = some ⟨N, m⟩) (hlt : m < N) :
    rp.serveAdmit host =
      (.forwarded, { rp with buckets := updateKey rp.buckets host ⟨N, m + 1⟩ }) := by
  unfold RevProxy.serveAdmit
  rw [hb, hg]
  simp [hlt]

theorem serveAdmit_found_full (rp : RevProxy) (host : String) (b : Backend) (N m : Nat)
    (hb : lookupKey rp.backends host = some b)
    (hg : lookupKey rp.buckets host = some ⟨N, m⟩) (hge : ¬ m < N) :
    rp.serveAdmit host = (.serviceUnavailable, rp) := by
  unfold RevProxy.serveAdmit
  rw [hb, hg]
  simp [hge]

theorem serveAdmit_fst_congr (s t : RevProxy) (h : String)
    (hb : lookupKey s.backends h = lookupKey t.backends h)
    (hg : lookupKey s.buckets h = lookupKey t.buckets h) :
    (s.serveAdmit h).1 = (t.serveAdmit h).1 := by
  unfold RevProxy.serveAdmit
  rw [hb, hg]
  cases lookupKey t.backends h with
  | none => rfl
  | some b =>
    cases lookupKey t.buckets h with
    | none => rfl
    | some g =>
      by_cases hlt : g.held < g.cap <;> simp [hlt]

theorem serveAdmit_buckets_frame (s : RevProxy) (h h2 : String) (hne : h ≠ h2) :
    lookupKey ((s.serveAdmit h).2).buckets h2 = lookupKey s.buckets h2 := by
  unfold RevProxy.serveAdmit
  cases lookupKey s.backends h with
  | none => rfl
  | some b =>
    cases lookupKey s.buckets h with
    | none => rfl
    | some g =>
      by_cases hlt : g.held < g.cap
      · simp [hlt, lookupKey_updateKey_ne _ _ _ _ hne]
      · simp [hlt]

/-- After `i ≤ N` still-in-flight admissions on a gate that starts empty
with capacity `N`, the backend entry is untouched and the gate holds
exactly `i` tokens. -/
theorem admitN_gate (rp : RevProxy) (host : String) (b : Backend) (N : Nat)
    (hb : lookupKey rp.backends host = some b)
    (hg : lookupKey rp.buckets host = some ⟨N, 0⟩) :
    ∀ i, i ≤ N →
      lookupKey (admitN host i rp).backends host = some b ∧
      lookupKey (admitN host i rp).buckets host = some ⟨N, i⟩ := by
  intro i
  induction i with
  | zero => intro _; exact ⟨hb, hg⟩
  | succ n ih =>
    intro hle
    have hn : n ≤ N := Nat.le_of_succ_le hle
    have hlt : n < N := hle
    obtain ⟨ihb, ihg⟩ := ih hn
    have hstep := serveAdmit_found_lt (admitN host n rp) host b N n ihb ihg hlt
    have h2 : admitN host (n + 1) rp =
        { admitN host n rp with
          buckets := updateKey (admitN host n rp).buckets host ⟨N, n + 1⟩ } := by
      show ((admitN host n rp).serveAdmit host).2 = _
      rw [hstep]
    constructor
    · rw [h2]
      exact ihb
    · rw [h2]
      exact lookupKey_updateKey_self _ _ _ (by rw [ihg]; rfl)

theorem lookupKey_of_mem_nodup {α : Type} (l : List (String × α)) (k : String) (a : α)
    (hnd : (l.map Prod.fst).Nodup) (h : (k, a) ∈ l) : lookupKey l k = some a := by
  induction l with
  | nil => simp at h
  | cons hd tl ih =>
    obtain ⟨k1, a1⟩ := hd
    have hnd2 : k1 ∉ tl.map Prod.fst ∧ (tl.map Prod.fst).Nodup :=
      List.nodup_cons.mp hnd
    rcases List.mem_cons.mp h with heq | hmem
    · have h1 : k = k1 := congrArg Prod.fst heq
      have h2 : a = a1 := congrArg Prod.snd heq
      subst h1; subst h2
      simp [lookupKey]
    · have hk : k1 ≠ k := by
        intro hcontra
        apply hnd2.1
        rw [hcontra]
        exact List.mem_map.mpr ⟨(k, a), hmem, rfl⟩
      simp [lookupKey, hk]
      exact ih hnd2.2 hmem

/-- Everything `buildLoop` guarantees about a successful build: the backend
and bucket key sequences both mirror the mapping, every gate is fresh with
capacity `cap`, and every mapping pair produced the entry its branch
builds (its parse call, in particular, succeeded). -/
theorem buildLoop_ok_spec (parse : String → Option URL) (cap : Nat) :
    ∀ (pairs : List (String × String)) (bs : List (String × Backend))
      (gs : List (String × Gate)),
      buildLoop parse cap pairs = .ok (bs, gs) →
      bs.map Prod.fst = pairs.map Prod.fst ∧
      gs.map Prod.fst = pairs.map Prod.fst ∧
      (∀ p ∈ gs, p.2 = Gate.mk cap 0) ∧
      (∀ k v, (k, v) ∈ pairs →
        (startsWith v "/" = true →
          ∃ u, parse ("http://" ++ k) = some u ∧
            (k, Backend.mk u (Transport.unixSocket v)) ∈ bs) ∧
        (startsWith v "/" = false →
          ∃ u, parse v = some u ∧ (k, Backend.mk u Transport.shared) ∈ bs)) := by
  intro pairs
  induction pairs with
  | nil =>
    intro bs gs h
    simp [buildLoop] at h
    obtain ⟨h1, h2⟩ := h
    subst h1; subst h2
    simp
  | cons hd tl ih =>
    obtain ⟨k0, v0⟩ := hd
    intro bs gs h
    simp only [buildLoop] at h
    by_cases hs : startsWith v0 "/"
    · rw [if_pos hs] at h
      cases hp : parse ("http://" ++ k0) with
      | none => rw [hp] at h; cases h
      | some dst =>
        rw [hp] at h
        cases hb : buildLoop parse cap tl with
        | error e => rw [hb] at h; cases h
        | ok r =>
          obtain ⟨bs1, gs1⟩ := r
          rw [hb] at h
          simp only [Except.ok.injEq, Prod.mk.injEq] at h
          obtain ⟨h1, h2⟩ := h
          subst h1; subst h2
          obtain ⟨ih1, ih2, ih3, ih4⟩ := ih bs1 gs1 hb
          refine ⟨by simp [ih1], by simp [ih2], ?_, ?_⟩
          · intro p hp2
            rcases List.mem_cons.mp hp2 with heq | hmem
            · subst heq; rfl
            · exact ih3 p hmem
          · intro k v hkv
            rcases List.mem_cons.mp hkv with heq | hmem
            · obtain ⟨e1, e2⟩ := Prod.mk.injEq .. ▸ heq
              subst e1; subst e2
              constructor
              · intro _
                exact ⟨dst, hp, List.mem_cons_self _ _⟩
              · intro hfalse
                rw [hfalse] at hs
                cases hs
            · obtain ⟨c1, c2⟩ := ih4 k v hmem
              constructor
              · intro ht
                obtain ⟨u, hu, hmem2⟩ := c1 ht
                exact ⟨u, hu, List.mem_cons_of_mem _ hmem2⟩
              · intro hf
                obtain ⟨u, hu, hmem2⟩ := c2 hf
                exact ⟨u, hu, List.mem_cons_of_mem _ hmem2⟩
    · rw [if_neg hs] at h
      cases hp : parse v0 with
      | none => rw [hp] at h; cases h
      | some dst =>
        rw [hp] at h
        cases hb : buildLoop parse cap tl with
        | error e => rw [hb] at h; cases h
        | ok r =>
          obtain ⟨bs1, gs1⟩ := r
          rw [hb] at h
          simp only [Except.ok.injEq, Prod.mk.injEq] at h
          obtain ⟨h1, h2⟩ := h
          subst h1; subst h2
          obtain ⟨ih1, ih2, ih3, ih4⟩ := ih bs1 gs1 hb
          refine ⟨by simp [ih1], by simp [ih2], ?_, ?_⟩
          · intro p hp2
            rcases List.mem_cons.mp hp2 with heq | hmem
            · subst heq; rfl
            · exact ih3 p hmem
          · intro k v hkv
            rcases List.mem_cons.mp hkv with heq | hmem
            · obtain ⟨e1, e2⟩ := Prod.mk.injEq .. ▸ heq
              subst e1; subst e2
              constructor
              · intro ht
                rw [ht] at hs
                cases hs rfl
              · intro _
                exact ⟨dst, hp, List.mem_cons_self _ _⟩
            · obtain ⟨c1, c2⟩ := ih4 k v hmem
              constructor
              · intro ht
                obtain ⟨u, hu, hmem2⟩ := c1 ht
                exact ⟨u, hu, List.mem_cons_of_mem _ hmem2⟩
              · intro hf
                obtain ⟨u, hu, hmem2⟩ := c2 hf
                exact ⟨u, hu, List.mem_cons_of_mem _ hmem2⟩

theorem releaseGate_backends (rp : RevProxy) (host : String) :
    ((rp.releaseGate host)).backends = rp.backends := by
  unfold RevProxy.releaseGate
  cases lookupKey rp.buckets host <;> rfl

/-- One whole sequential request against an empty gate of positive
capacity: it is admitted, holds exactly one token while in flight, and the
release restores the empty gate. -/
theorem ServeHTTP_cycle (rp : RevProxy) (host : String) (b : Backend) (N : Nat)
    (hb : lookupKey rp.backends host = some b)
    (hg : lookupKey rp.buckets host = some ⟨N, 0⟩) (hpos : 0 < N) :
    (rp.ServeHTTP host).1 = .forwarded ∧
    lookupKey ((rp.ServeHTTP host).2).backends host = some b ∧
    lookupKey ((rp.ServeHTTP host).2).buckets host = some ⟨N, 0⟩ ∧
    lookupKey ((rp.serveAdmit host).2).buckets host = some ⟨N, 1⟩ := by
  have hstep := serveAdmit_found_lt rp host b N 0 hb hg hpos
  have hmid : lookupKey ((rp.serveAdmit host).2).buckets host = some ⟨N, 1⟩ := by
    rw [hstep]
    exact lookupKey_updateKey_self _ _ _ (by rw [hg]; rfl)
  have hserve : rp.ServeHTTP host =
      (.forwarded, ((rp.serveAdmit host).2).releaseGate host) := by
    unfold RevProxy.ServeHTTP
    rw [hstep]
  have hrel : ((rp.serveAdmit host).2).releaseGate host =
      { (rp.serveAdmit host).2 with
        buckets := updateKey ((rp.serveAdmit host).2).buckets host ⟨N, 0⟩ } := by
    unfold RevProxy.releaseGate
    rw [hmid]
    rfl
  refine ⟨by rw [hserve], ?_, ?_, hmid⟩
  · rw [hserve]
    show lookupKey ((((rp.serveAdmit host).2).releaseGate host)).backends host = some b
    rw [releaseGate_backends, serveAdmit_backends]
    exact hb
  · rw [hserve]
    show lookupKey ((((rp.serveAdmit host).2).releaseGate host)).buckets host = _
    rw [hrel]
    exact lookupKey_updateKey_self _ _ _ (by rw [hmid]; rfl)

/-- Sequential requests against a capacity-1 gate never leak: after each
completed request the gate is empty again and the backend entry intact. -/
theorem requestN_state (rp : RevProxy) (host : String) (b : Backend)
    (hb : lookupKey rp.backends host = some b)
    (hg : lookupKey rp.buckets host = some ⟨1, 0⟩) :
    ∀ m, lookupKey (requestN host m rp).backends host = some b ∧
         lookupKey (requestN host m rp).buckets host = some ⟨1, 0⟩ := by
  intro m
  induction m with
  | zero => exact ⟨hb, hg⟩
  | succ n ih =>
    obtain ⟨ihb, ihg⟩ := ih
    have h := ServeHTTP_cycle (requestN host n rp) host b 1 ihb ihg (by decide)
    exact ⟨h.2.1, h.2.2.1⟩

theorem NewRevProxy_ok_spec (parse : String → Option URL) (conf : Config) (rp : RevProxy)
    (hok : NewRevProxy parse conf = .ok rp) :
    rp.MaxIdleConnsPerHost = conf.MaxKeepalivesPerBackend ∧
    buildLoop parse conf.MaxConnsPerBackend.toNat conf.Mapping =
      .ok (rp.backends, rp.buckets) := by
  unfold NewRevProxy at hok
  cases hv : conf.validate with
  | some e => rw [hv] at hok; cases hok
  | none =>
    rw [hv] at hok
    cases hb : buildLoop parse conf.MaxConnsPerBackend.toNat conf.Mapping with
    | error e => rw [hb] at hok; cases hok
    | ok r =>
      obtain ⟨bs, gs⟩ := r
      rw [hb] at hok
      simp only [Except.ok.injEq] at hok
      subst hok
      exact ⟨rfl, rfl⟩

theorem admitN_backends (host : String) (n : Nat) (rp : RevProxy) :
    (admitN host n rp).backends = rp.backends := by
  induction n with
  | zero => rfl
  | succ m ih =>
    show ((admitN host m rp).serveAdmit host).2.backends = rp.backends
    rw [serveAdmit_backends, ih]

theorem admitN_buckets_frame (host h2 : String) (hne : host ≠ h2) (n : Nat)
    (rp : RevProxy) :
    lookupKey (admitN host n rp).buckets h2 = lookupKey rp.buckets h2 := by
  induction n with
  | zero => rfl
  | succ m ih =>
    show lookupKey (((admitN host m rp).serveAdmit host).2).buckets h2 = _
    rw [serveAdmit_buckets_frame _ _ _ hne, ih]

theorem limitListener_invariant (start l : LimitedListener)
    (hreach : Relation.ReflTransGen LimitedListener.step start l)
    (hstart : start.active ≤ start.limit) :
    l.active ≤ l.limit ∧ l.limit = start.limit := by
  induction hreach with
  | refl => exact ⟨hstart, rfl⟩
  | tail hsteps hstep ih =>
    cases hstep with
    | accept h => exact ⟨h, ih.2⟩
    | close h => exact ⟨Nat.le_trans (Nat.sub_le _ _) ih.1, ih.2⟩

/-! Claim theorems. -/

/-- Claim C1: on a backend whose gate has capacity N and is empty, the
first N concurrent (still in-flight) requests are all admitted, the
(N+1)-th is answered 503 Service Unavailable with the state untouched (so
nothing is forwarded for it), and every admission decision is a single
total step yielding one of the three responses — no request ever blocks
on the gate. -/
theorem gate_capacity_exact (rp : RevProxy) (host : String) (b : Backend) (N : Nat)
    (hb : lookupKey rp.backends host = some b)
    (hg : lookupKey rp.buckets host = some ⟨N, 0⟩) :
    (∀ i, i < N → ((admitN host i rp).serveAdmit host).1 = Response.forwarded) ∧
    ((admitN host N rp).serveAdmit host).1 = Response.serviceUnavailable ∧
    ((admitN host N rp).serveAdmit host).2 = admitN host N rp ∧
    (∀ s : RevProxy, ∀ h2 : String,
      (s.serveAdmit h2).1 = Response.forwarded ∨
      (s.serveAdmit h2).1 = Response.badGateway ∨
      (s.serveAdmit h2).1 = Response.serviceUnavailable) := by
  refine ⟨?_, ?_, ?_, ?_⟩
  · intro i hi
    obtain ⟨ihb, ihg⟩ := admitN_gate rp host b N hb hg i (Nat.le_of_lt hi)
    rw [serveAdmit_found_lt _ _ _ _ _ ihb ihg hi]
  · obtain ⟨ihb, ihg⟩ := admitN_gate rp host b N hb hg N (Nat.le_refl N)
    rw [serveAdmit_found_full _ _ _ _ _ ihb ihg (Nat.lt_irrefl N)]
  · obtain ⟨ihb, ihg⟩ := admitN_gate rp host b N hb hg N (Nat.le_refl N)
    rw [serveAdmit_found_full _ _ _ _ _ ihb ihg (Nat.lt_irrefl N)]
  · intro s h2
    unfold RevProxy.serveAdmit
    cases lookupKey s.backends h2 with
    | none => right; left; rfl
    | some b2 =>
      cases lookupKey s.buckets h2 with
      | none => right; right; rfl
      | some g =>
        by_cases hlt : g.held < g.cap
        · left; simp [hlt]
        · right; right; simp [hlt]

/-- Claim C2: against a capacity-1 gate, every sequential request is
admitted, while it is in flight exactly one token is held (never more
than one concurrently), and after it completes the slot is released so
the gate is empty again and the next request is admitted at once. -/
theorem sequential_requests_no_leak (rp : RevProxy) (host : String) (b : Backend)
    (hb : lookupKey rp.backends host = some b)
    (hg : lookupKey rp.buckets host = some ⟨1, 0⟩) :
    ∀ m : Nat,
      ((requestN host m rp).ServeHTTP host).1 = Response.forwarded ∧
      lookupKey (((requestN host m rp).serveAdmit host).2).buckets host = some ⟨1, 1⟩ ∧
      lookupKey (requestN host (m + 1) rp).buckets host = some ⟨1, 0⟩ := by
  intro m
  obtain ⟨ihb, ihg⟩ := requestN_state rp host b hb hg m
  have h := ServeHTTP_cycle (requestN host m rp) host b 1 ihb ihg (by decide)
  refine ⟨h.1, h.2.2.2, ?_⟩
  show lookupKey (((requestN host m rp).ServeHTTP host).2).buckets host = some ⟨1, 0⟩
  exact h.2.2.1

/-- Claim C3: a request whose host matches no routing key is answered 502
Bad Gateway and the proxy state — every admission gate included — is
returned exactly as it was. -/
theorem unknown_host_bad_gateway (rp : RevProxy) (host : String)
    (h : lookupKey rp.backends host = none) :
    rp.ServeHTTP host = (Response.badGateway, rp) ∧
    (rp.ServeHTTP host).1.statusCode = some 502 ∧
    ((rp.ServeHTTP host).2).buckets = rp.buckets := by
  have hadm : rp.serveAdmit host = (Response.badGateway, rp) := by
    unfold RevProxy.serveAdmit
    rw [h]
  have hserve : rp.ServeHTTP host = (Response.badGateway, rp) := by
    unfold RevProxy.ServeHTTP
    rw [hadm]
  exact ⟨hserve, by rw [hserve]; rfl, by rw [hserve]⟩

/-- Claim C4: `Config.validate` fails exactly when `MaxConnsPerBackend < 1`
or `MaxKeepalivesPerBackend < 1` or the mapping is empty; under any such
configuration `NewRevProxy` returns an error and no proxy, and any
configuration with both limits at least 1 and a non-empty mapping
validates cleanly. -/
theorem validate_spec (c : Config) :
    ((c.validate).isSome ↔
      (c.MaxConnsPerBackend < 1 ∨ c.MaxKeepalivesPerBackend < 1 ∨ c.Mapping = [])) ∧
    (∀ parse : String → Option URL,
      (c.MaxConnsPerBackend < 1 ∨ c.MaxKeepalivesPerBackend < 1 ∨ c.Mapping = []) →
      ∃ e, NewRevProxy parse c = .error e) ∧
    (1 ≤ c.MaxConnsPerBackend → 1 ≤ c.MaxKeepalivesPerBackend → c.Mapping ≠ [] →
      c.validate = none) := by
  have hiff : (c.validate).isSome ↔
      (c.MaxConnsPerBackend < 1 ∨ c.MaxKeepalivesPerBackend < 1 ∨ c.Mapping = []) := by
    unfold Config.validate
    split_ifs with h1 h2 h3
    · simp [h1]
    · simp [h1, h2]
    · simp [h1, h2, List.length_eq_zero.mp h3]
    · have hm : c.Mapping ≠ [] := fun hc => h3 (by rw [hc]; rfl)
      simp [h1, h2, hm]
  refine ⟨hiff, ?_, ?_⟩
  · intro parse hbad
    have hsome : (c.validate).isSome := hiff.mpr hbad
    cases hv : c.validate with
    | none => rw [hv] at hsome; cases hsome
    | some e =>
      refine ⟨e, ?_⟩
      unfold NewRevProxy
      rw [hv]
  · intro hc hk hm
    cases hv : c.validate with
    | none => rfl
    | some e =>
      have hsome : (c.validate).isSome := by rw [hv]; rfl
      rcases hiff.mp hsome with hbad | hbad | hbad
      · exact absurd hbad (not_lt.mpr hc)
      · exact absurd hbad (not_lt.mpr hk)
      · exact absurd hbad hm

/-- Claim C5: every mapping pair whose destination starts with `/` yields a
backend whose transport always dials that literal unix-socket path, and
whose destination URL is parsed from `"http://" ++ routing key`. -/
theorem unix_destination_backend (parse : String → Option URL) (conf : Config)
    (rp : RevProxy) (k v : String)
    (hnd : (conf.Mapping.map Prod.fst).Nodup)
    (hmem : (k, v) ∈ conf.Mapping)
    (hsock : startsWith v "/" = true)
    (hok : NewRevProxy parse conf = .ok rp) :
    ∃ u, parse ("http://" ++ k) = some u ∧
      lookupKey rp.backends k = some ⟨u, Transport.unixSocket v⟩ := by
  obtain ⟨_, hbuild⟩ := NewRevProxy_ok_spec parse conf rp hok
  obtain ⟨hkeys, _, _, hmem2⟩ := buildLoop_ok_spec parse _ conf.Mapping _ _ hbuild
  obtain ⟨u, hu, humem⟩ := (hmem2 k v hmem).1 hsock
  refine ⟨u, hu, ?_⟩
  exact lookupKey_of_mem_nodup _ _ _ (by rw [hkeys]; exact hnd) humem

/-- Claim C6: whenever the URL parse performed for a mapping pair fails
(the destination itself for a network backend, the synthetic
`"http://" ++ key` authority for a socket backend), `NewRevProxy` returns
an error and no proxy value. -/
theorem parse_failure_aborts (parse : String → Option URL) (conf : Config) (k v : String)
    (hmem : (k, v) ∈ conf.Mapping)
    (hfail : (if startsWith v "/" then parse ("http://" ++ k) else parse v) = none) :
    ∃ e, NewRevProxy parse conf = .error e := by
  cases hres : NewRevProxy parse conf with
  | error e => exact ⟨e, rfl⟩
  | ok rp =>
    exfalso
    obtain ⟨_, hbuild⟩ := NewRevProxy_ok_spec parse conf rp hres
    obtain ⟨_, _, _, hmem2⟩ := buildLoop_ok_spec parse _ conf.Mapping _ _ hbuild
    by_cases hs : startsWith v "/"
    · obtain ⟨u, hu, _⟩ := (hmem2 k v hmem).1 hs
      rw [if_pos hs, hu] at hfail
      cases hfail
    · obtain ⟨u, hu, _⟩ := (hmem2 k v hmem).2 (Bool.not_eq_true _ ▸ hs)
      rw [if_neg hs, hu] at hfail
      cases hfail

/-- Claim C7: after a successful build the shared transport's idle
connection limit per host is exactly `MaxKeepalivesPerBackend`, and every
non-socket (TCP) backend uses that single shared transport with no
per-backend override. -/
theorem shared_transport_spec (parse : String → Option URL) (conf : Config)
    (rp : RevProxy)
    (hok : NewRevProxy parse conf = .ok rp) :
    rp.MaxIdleConnsPerHost = conf.MaxKeepalivesPerBackend ∧
    (∀ k v, (conf.Mapping.map Prod.fst).Nodup → (k, v) ∈ conf.Mapping →
      startsWith v "/" = false →
      ∃ u, parse v = some u ∧ lookupKey rp.backends k = some ⟨u, Transport.shared⟩) := by
  obtain ⟨hidle, hbuild⟩ := NewRevProxy_ok_spec parse conf rp hok
  obtain ⟨hkeys, _, _, hmem2⟩ := buildLoop_ok_spec parse _ conf.Mapping _ _ hbuild
  refine ⟨hidle, ?_⟩
  intro k v hnd hmem hnet
  obtain ⟨u, hu, humem⟩ := (hmem2 k v hmem).2 hnet
  exact ⟨u, hu, lookupKey_of_mem_nodup _ _ _ (by rw [hkeys]; exact hnd) humem⟩

/-- Claim C8: two distinct routing keys — even with the same destination —
get two independent fresh gates of capacity `MaxConnsPerBackend`, and any
number of admissions against the first key leaves the second key's gate
state and admission decision untouched. -/
theorem independent_gates (parse : String → Option URL) (conf : Config) (rp : RevProxy)
    (k1 k2 v : String)
    (_hnd : (conf.Mapping.map Prod.fst).Nodup)
    (h1 : (k1, v) ∈ conf.Mapping) (h2 : (k2, v) ∈ conf.Mapping) (hne : k1 ≠ k2)
    (hok : NewRevProxy parse conf = .ok rp) :
    lookupKey rp.buckets k1 = some ⟨conf.MaxConnsPerBackend.toNat, 0⟩ ∧
    lookupKey rp.buckets k2 = some ⟨conf.MaxConnsPerBackend.toNat, 0⟩ ∧
    (∀ n, lookupKey (admitN k1 n rp).buckets k2 = lookupKey rp.buckets k2 ∧
      ((admitN k1 n rp).serveAdmit k2).1 = (rp.serveAdmit k2).1) := by
  obtain ⟨_, hbuild⟩ := NewRevProxy_ok_spec parse conf rp hok
  obtain ⟨_, hgkeys, hfresh, _⟩ := buildLoop_ok_spec parse _ conf.Mapping _ _ hbuild
  have hlook : ∀ k3 v3, (k3, v3) ∈ conf.Mapping →
      lookupKey rp.buckets k3 = some ⟨conf.MaxConnsPerBackend.toNat, 0⟩ := by
    intro k3 v3 hmem3
    have hin : k3 ∈ rp.buckets.map Prod.fst := by
      rw [hgkeys]
      exact List.mem_map.mpr ⟨(k3, v3), hmem3, rfl⟩
    have hsome := (lookupKey_isSome_iff rp.buckets k3).mpr hin
    cases hl : lookupKey rp.buckets k3 with
    | none => rw [hl] at hsome; cases hsome
    | some g =>
      have hg2 : g = ⟨conf.MaxConnsPerBackend.toNat, 0⟩ :=
        hfresh (k3, g) (lookupKey_mem _ _ _ hl)
      rw [hg2]
  refine ⟨hlook k1 v h1, hlook k2 v h2, ?_⟩
  intro n
  refine ⟨admitN_buckets_frame k1 k2 hne n rp, ?_⟩
  exact serveAdmit_fst_congr _ _ _ (by rw [admitN_backends]) (admitN_buckets_frame k1 k2 hne n rp)

/-- Claim C9: `Listen` rejects a non-positive `maxconn` with an error
before any listener is created; with a positive cap it wraps the TCP
listener in a limit listener from which every reachable state has at most
`maxconn` concurrently accepted connections. -/
theorem listen_spec (netListen : String → Except String NetListener) (addr : String)
    (maxconn : Int) :
    (maxconn < 1 → Listen netListen addr maxconn = .error "maxconn should be positive") ∧
    (1 ≤ maxconn → ∀ ln, netListen addr = .ok ln →
      Listen netListen addr maxconn = .ok (LimitListener ln maxconn.toNat) ∧
      ∀ l, Relation.ReflTransGen LimitedListener.step (LimitListener ln maxconn.toNat) l →
        (l.active : Int) ≤ maxconn) := by
  constructor
  · intro hlt
    unfold Listen
    rw [if_pos hlt]
  · intro hge ln hln
    have hnlt : ¬ maxconn < 1 := not_lt.mpr hge
    constructor
    · unfold Listen
      rw [if_neg hnlt, hln]
    · intro l hreach
      have hinv := limitListener_invariant _ l hreach (Nat.zero_le _)
      have hlim : l.limit = maxconn.toNat := hinv.2
      have hle : l.active ≤ maxconn.toNat := hlim ▸ hinv.1
      calc (l.active : Int) ≤ (maxconn.toNat : Int) := Int.ofNat_le.mpr hle
        _ = maxconn := Int.toNat_of_nonneg (le_trans (by decide) hge)

/-- Claim C10: a successful `NewRevProxy` produces backends and buckets
over exactly the same routing keys, every gate being fresh with capacity
`MaxConnsPerBackend`; hence the bucket lookup in `ServeHTTP` for any host
with a backend always finds a gate. -/
theorem backends_buckets_aligned (parse : String → Option URL) (conf : Config)
    (rp : RevProxy)
    (hok : NewRevProxy parse conf = .ok rp) :
    rp.backends.map Prod.fst = rp.buckets.map Prod.fst ∧
    (∀ host b2, lookupKey rp.backends host = some b2 →
      lookupKey rp.buckets host = some ⟨conf.MaxConnsPerBackend.toNat, 0⟩) := by
  obtain ⟨_, hbuild⟩ := NewRevProxy_ok_spec parse conf rp hok
  obtain ⟨hbkeys, hgkeys, hfresh, _⟩ := buildLoop_ok_spec parse _ conf.Mapping _ _ hbuild
  have hkeys : rp.backends.map Prod.fst = rp.buckets.map Prod.fst := by
    rw [hbkeys, hgkeys]
  refine ⟨hkeys, ?_⟩
  intro host b2 hlb
  have hin : host ∈ rp.buckets.map Prod.fst := by
    rw [← hkeys]
    exact (lookupKey_isSome_iff rp.backends host).mp (by rw [hlb]; rfl)
  have hsome := (lookupKey_isSome_iff rp.buckets host).mpr hin
  cases hl : lookupKey rp.buckets host with
  | none => rw [hl] at hsome; cases hsome
  | some g =>
    have hg2 : g = ⟨conf.MaxConnsPerBackend.toNat, 0⟩ :=
      hfresh (host, g) (lookupKey_mem _ _ _ hl)
    rw [hg2]

/-! Concrete instances used to witness the claim theorems. -/

/-- A url parser that accepts every string (records it verbatim). -/
def parseAll : String → Option URL := fun s => some ⟨s⟩

/-- A url parser that rejects every string. -/
def parseNone : String → Option URL := fun _ => none

def backendEx : Backend := ⟨⟨"http://127.0.0.1:9001"⟩, Transport.shared⟩

def rpEx : RevProxy := ⟨[("a.test", backendEx)], [("a.test", ⟨2, 0⟩)], 5⟩

def rpEx1 : RevProxy := ⟨[("a.test", backendEx)], [("a.test", ⟨1, 0⟩)], 5⟩

def confEx : Config :=
  ⟨2, 5, [("a.test", "http://127.0.0.1:9001"), ("b.test", "/run/b.sock")]⟩

def rpBuilt : RevProxy :=
  ⟨[("a.test", ⟨⟨"http://127.0.0.1:9001"⟩, Transport.shared⟩),
    ("b.test", ⟨⟨"http://b.test"⟩, Transport.unixSocket "/run/b.sock"⟩)],
   [("a.test", ⟨2, 0⟩), ("b.test", ⟨2, 0⟩)], 5⟩

theorem rpBuilt_ok : NewRevProxy parseAll confEx = .ok rpBuilt := rfl

def confSame : Config :=
  ⟨2, 5, [("a.test", "http://shared.example"), ("c.test", "http://shared.example")]⟩

def rpSame : RevProxy :=
  ⟨[("a.test", ⟨⟨"http://shared.example"⟩, Transport.shared⟩),
    ("c.test", ⟨⟨"http://shared.example"⟩, Transport.shared⟩)],
   [("a.test", ⟨2, 0⟩), ("c.test", ⟨2, 0⟩)], 5⟩

theorem rpSame_ok : NewRevProxy parseAll confSame = .ok rpSame := rfl

def netListenEx : String → Except String NetListener := fun s => .ok ⟨s⟩

/-! Witnesses. -/

/-- Witness for C1 on a gate of capacity 2. -/
theorem gate_capacity_exact_witness :
    ((admitN "a.test" 0 rpEx).serveAdmit "a.test").1 = Response.forwarded ∧
    ((admitN "a.test" 2 rpEx).serveAdmit "a.test").1 = Response.serviceUnavailable := by
  have h := gate_capacity_exact rpEx "a.test" backendEx 2 (by decide) (by decide)
  exact ⟨h.1 0 (by decide), h.2.1⟩

/-- Witness for C2 after three sequential requests. -/
theorem sequential_requests_no_leak_witness :
    ((requestN "a.test" 3 rpEx1).ServeHTTP "a.test").1 = Response.forwarded ∧
    lookupKey (requestN "a.test" 4 rpEx1).buckets "a.test" = some ⟨1, 0⟩ := by
  have h := sequential_requests_no_leak rpEx1 "a.test" backendEx (by decide) (by decide) 3
  exact ⟨h.1, h.2.2⟩

/-- Witness for C3 on an unconfigured host. -/
theorem unknown_host_bad_gateway_witness :
    rpEx.ServeHTTP "b.test" = (Response.badGateway, rpEx) :=
  (unknown_host_bad_gateway rpEx "b.test" (by decide)).1

/-- Witness for C4 on a config with a zero connection limit and on a valid
config. -/
theorem validate_spec_witness :
    (∃ e, NewRevProxy parseAll ⟨0, 5, [("a.test", "http://x")]⟩ = .error e) ∧
    (Config.validate ⟨2, 5, [("a.test", "http://x")]⟩) = none := by
  have h1 := validate_spec ⟨0, 5, [("a.test", "http://x")]⟩
  have h2 := validate_spec ⟨2, 5, [("a.test", "http://x")]⟩
  exact ⟨h1.2.1 parseAll (Or.inl (by decide)),
    h2.2.2 (by decide) (by decide) (by simp)⟩

/-- Witness for C5 on the socket-backed entry of `confEx`. -/
theorem unix_destination_backend_witness :
    ∃ u, parseAll ("http://" ++ "b.test") = some u ∧
      lookupKey rpBuilt.backends "b.test" =
        some ⟨u, Transport.unixSocket "/run/b.sock"⟩ :=
  unix_destination_backend parseAll confEx rpBuilt "b.test" "/run/b.sock"
    (by decide) (by decide) (by decide) rpBuilt_ok

/-- Witness for C6 with a parser that rejects everything. -/
theorem parse_failure_aborts_witness :
    ∃ e, NewRevProxy parseNone confEx = .error e :=
  parse_failure_aborts parseNone confEx "a.test" "http://127.0.0.1:9001"
    (by decide) (by decide)

/-- Witness for C7 on the TCP-backed entry of `confEx`. -/
theorem shared_transport_spec_witness :
    rpBuilt.MaxIdleConnsPerHost = confEx.MaxKeepalivesPerBackend ∧
    (∃ u, parseAll "http://127.0.0.1:9001" = some u ∧
      lookupKey rpBuilt.backends "a.test" = some ⟨u, Transport.shared⟩) := by
  have h := shared_transport_spec parseAll confEx rpBuilt rpBuilt_ok
  exact ⟨h.1, h.2 "a.test" "http://127.0.0.1:9001" (by decide) (by decide) (by decide)⟩

/-- Witness for C8: two keys sharing a destination, gate of the second
unchanged after two admissions against the first. -/
theorem independent_gates_witness :
    lookupKey rpSame.buckets "c.test" = some ⟨2, 0⟩ ∧
    lookupKey (admitN "a.test" 2 rpSame).buckets "c.test" =
      lookupKey rpSame.buckets "c.test" := by
  have h := independent_gates parseAll confSame rpSame "a.test" "c.test"
    "http://shared.example" (by decide) (by decide) (by decide) (by decide) rpSame_ok
  exact ⟨h.2.1, (h.2.2 2).1⟩

/-- Witness for C9 at `maxconn = 0` and `maxconn = 1000`. -/
theorem listen_spec_witness :
    Listen netListenEx "0.0.0.0:8080" 0 = .error "maxconn should be positive" ∧
    Listen netListenEx "0.0.0.0:8080" 1000 =
      .ok (LimitListener ⟨"0.0.0.0:8080"⟩ 1000) := by
  have h0 := listen_spec netListenEx "0.0.0.0:8080" 0
  have h1 := listen_spec netListenEx "0.0.0.0:8080" 1000
  exact ⟨h0.1 (by decide), (h1.2 (by decide) ⟨"0.0.0.0:8080"⟩ rfl).1⟩

/-- Witness for C10 on `confEx`. -/
theorem backends_buckets_aligned_witness :
    rpBuilt.backends.map Prod.fst = rpBuilt.buckets.map Prod.fst ∧
    lookupKey rpBuilt.buckets "a.test" = some ⟨2, 0⟩ := by
  have h := backends_buckets_aligned parseAll confEx rpBuilt rpBuilt_ok
  exact ⟨h.1, h.2 "a.test" backendEx (by decide)⟩

end Revproxy
